import Mathlib

/-!
Verification of `src/app.py` (zotero-web), a small aiohttp file server.

The embedding models Python strings as `List Char` (`Str`), the filesystem
under the storage root as a list of relative forward-slash paths, and the
module-level mutable state (`_file_cache`, `_last_update`, `_recent_files`)
as explicit values threaded through the functions.  Filesystem access
(`os.path.isfile`, reading file bytes) is a parameter of the handlers; the
path-canonicalisation `os.path.realpath` is modelled lexically (resolution
of `.` and `..` segments over a symlink-free filesystem).  Machine floats of
`time.time()` are modelled as natural-number seconds.
-/

namespace ZoteroWeb

/-- Python strings, modelled as lists of characters (code points). -/
abbrev Str := List Char

/-! ## Python string primitives used by app.py -/

/-- The whitespace characters stripped by Python `str.strip()` (ASCII part). -/
def pyIsSpace (c : Char) : Bool :=
  c = ' ' || c = '\t' || c = '\n' || c = '\r' || c = '\x0b' || c = '\x0c'

/-- Python `str.strip()`. -/
def pyStrip (s : Str) : Str :=
  ((s.dropWhile pyIsSpace).reverse.dropWhile pyIsSpace).reverse

/-- After an initial digit, a CPython integer literal tail: digits with single
underscores allowed only between digits. -/
def udTail : Str → Bool
  | [] => true
  | c :: rest =>
    if c = '_' then
      match rest with
      | [] => false
      | d :: rest2 => d.isDigit && udTail rest2
    else c.isDigit && udTail rest

/-- A nonempty digit run, with CPython single-underscore grouping allowed. -/
def digitsOk : Str → Bool
  | [] => false
  | c :: rest => c.isDigit && udTail rest

/-- Numeric value of a list of decimal digit characters. -/
def digitsVal (s : Str) : Nat :=
  s.foldl (fun a c => 10 * a + (c.toNat - 48)) 0

/-- Value of a digit run after removing underscore separators. -/
def udVal (s : Str) : Nat := digitsVal (s.filter (fun c => c ≠ '_'))

/-- Python `int(str)` on the stripped string: optional sign, then digits
(with CPython underscore grouping).  `none` models a raised `ValueError`. -/
def pyIntCore : Str → Option Int
  | [] => none
  | c :: rest =>
    if c = '+' then (if digitsOk rest then some (udVal rest : Nat) else none)
    else if c = '-' then (if digitsOk rest then some (-(udVal rest : Int)) else none)
    else if digitsOk (c :: rest) then some (udVal (c :: rest) : Nat) else none

/-- Python `int(str)`: strips whitespace first; `none` models `ValueError`. -/
def pyInt (s : Str) : Option Int := pyIntCore (pyStrip s)

/-- Python `str.split(sep)` for a one-character separator: splits on every
occurrence, keeping empty pieces; the result is never empty. -/
def splitChar (c : Char) : Str → List Str
  | [] => [[]]
  | x :: xs =>
    match splitChar c xs with
    | r :: rs => if x = c then [] :: r :: rs else (x :: r) :: rs
    | [] => [[]]

/-- Decimal digits of `n`, accumulator form (`fuel` keeps the recursion
structural; it is always sufficient since `n + 1` bounds the digit count). -/
def natToStrAux : Nat → Nat → Str → Str
  | 0, _, acc => acc
  | fuel + 1, n, acc =>
    let acc2 := Char.ofNat (48 + n % 10) :: acc
    if n < 10 then acc2 else natToStrAux fuel (n / 10) acc2

/-- Decimal rendering of a natural number (Python `str(n)` / f-string). -/
def natToStr (n : Nat) : Str := natToStrAux (n + 1) n []

/-- Decimal rendering of an integer (Python `str(i)` / f-string). -/
def intToStr (i : Int) : Str :=
  if i < 0 then '-' :: natToStr i.natAbs else natToStr i.natAbs

/-- Value of one hexadecimal digit character. -/
def hexVal (c : Char) : Option Nat :=
  if '0' ≤ c ∧ c ≤ '9' then some (c.toNat - 48)
  else if 'a' ≤ c ∧ c ≤ 'f' then some (c.toNat - 87)
  else if 'A' ≤ c ∧ c ≤ 'F' then some (c.toNat - 55)
  else none

/-- Python `urllib.parse.unquote`: percent-escapes followed by two hex digits
decode to the escaped code unit; malformed escapes are kept verbatim.
(Multi-byte UTF-8 escape sequences, which `unquote` would recombine, are out
of scope: every input considered here is ASCII.) -/
def unquoteChars : Str → Str
  | [] => []
  | '%' :: a :: b :: rest2 =>
    (match hexVal a, hexVal b with
     | some x, some y => Char.ofNat (16 * x + y) :: unquoteChars rest2
     | _, _ => '%' :: unquoteChars (a :: b :: rest2))
  | c :: rest => c :: unquoteChars rest

/-! ## Path model: os.path.join / os.path.realpath / os.path.splitext -/

/-- Model of `os.path.join(a, b)` on POSIX: an absolute `b` discards `a`; otherwise a
separator is inserted unless `a` is empty or already ends with one. -/
def pathJoin (a b : Str) : Str :=
  if b.headD ' ' = '/' then b
  else if a = [] then b
  else if a.getLastD ' ' = '/' then a ++ b
  else a ++ '/' :: b

/-- Nonempty segments of an absolute path string. -/
def splitSegs (p : Str) : List Str :=
  (splitChar '/' p).filter (fun s => s ≠ [])

/-- Resolve `.` and `..` segments against a (reversed) stack of resolved
segments; `..` at the root stays at the root, as `realpath` does. -/
def resolveDots : List Str → List Str → List Str
  | acc, [] => acc.reverse
  | acc, seg :: rest =>
    if seg = ['.'] then resolveDots acc rest
    else if seg = ['.', '.'] then resolveDots acc.tail rest
    else resolveDots (seg :: acc) rest

/-- Render resolved segments as an absolute path. -/
def joinSegsAbs (segs : List Str) : Str :=
  if segs = [] then ['/'] else segs.foldl (fun a s => a ++ '/' :: s) []

/-- Model of `os.path.realpath` on an absolute path over a symlink-free filesystem:
canonicalisation is the lexical resolution of `.` and `..`. -/
def realpathModel (p : Str) : Str :=
  joinSegsAbs (resolveDots [] (splitSegs p))

/-- The suffix of `s` starting at its last dot, if any. -/
def lastDotSuffix : Str → Option Str
  | [] => none
  | c :: cs =>
    match lastDotSuffix cs with
    | some r => some r
    | none => if c = '.' then some (c :: cs) else none

/-- Model of `os.path.splitext(p)[1]`: the extension of the final path component,
where leading dots of the component never begin an extension. -/
def extOf (p : Str) : Str :=
  let base := (splitChar '/' p).getLastD []
  let rest := base.dropWhile (fun c => c = '.')
  (lastDotSuffix rest).getD []

/-- Model of `os.path.splitext(filename)[1].lower()` as computed in the handlers. -/
def extLower (p : Str) : Str := (extOf p).map Char.toLower

/-- The property "canonical path `p` lies beneath canonical directory
`root`": it is the root itself or has `root ++ "/"` as a prefix.  (This is
the specification notion; the code instead tests a bare string prefix.) -/
def liesBeneathBool (root p : Str) : Bool :=
  p = root || (root ++ ['/']).isPrefixOf p

/-! ## Module constants and cache state (app.py lines 27-34) -/

def CACHE_TIMEOUT : Nat := 600

def NUM_RECENT_FILES : Nat := 5

/-- The module-level cache globals `_file_cache` and `_last_update`. -/
structure CacheState where
  fileCache : Option (List Str)
  lastUpdate : Nat
deriving DecidableEq

/-- The state written by the watcher: `_file_cache = None; _last_update = 0`. -/
def clearedCache : CacheState := ⟨none, 0⟩

/-! ## FileChangeHandler (app.py lines 37-52) -/

/-- Model of `FileChangeHandler._invalidate_cache_if_in_storage`. -/
def invalidateIfInStorage (storage srcPath : Str) (st : CacheState) : CacheState :=
  if storage.isPrefixOf srcPath then clearedCache else st

/-- Model of `FileChangeHandler.on_created`. -/
def onCreated (storage srcPath : Str) (st : CacheState) : CacheState :=
  invalidateIfInStorage storage srcPath st

/-- Model of `FileChangeHandler.on_deleted`. -/
def onDeleted (storage srcPath : Str) (st : CacheState) : CacheState :=
  invalidateIfInStorage storage srcPath st

/-- Model of `FileChangeHandler.on_moved`: invalidates for the source path, then for
the destination path. -/
def onMoved (storage srcPath destPath : Str) (st : CacheState) : CacheState :=
  invalidateIfInStorage storage destPath (invalidateIfInStorage storage srcPath st)

/-! ## _list_files_sync (app.py lines 150-174) -/

/-- The walk filter `f.lower().endswith((".pdf", ".epub", ".html", ".htm"))`.
Applied here to the full relative path; since none of the suffixes contains a
separator this agrees with applying it to the basename. -/
def allowedExtBool (f : Str) : Bool :=
  let l := f.map Char.toLower
  (".pdf".toList).isSuffixOf l || (".epub".toList).isSuffixOf l ||
    (".html".toList).isSuffixOf l || (".htm".toList).isSuffixOf l

/-- Lexicographic code-point comparison, Python `<` on strings. -/
def strLt : Str → Str → Bool
  | [], [] => false
  | [], _ :: _ => true
  | _ :: _, [] => false
  | a :: s, b :: t =>
    if a.toNat < b.toNat then true
    else if b.toNat < a.toNat then false
    else strLt s t

/-- Python `<=` on strings. -/
def strLe (s t : Str) : Bool := !(strLt t s)

/-- Insert into a sorted list (ascending by `strLe`). -/
def insertSorted (x : Str) : List Str → List Str
  | [] => [x]
  | y :: ys => if strLe x y then x :: y :: ys else y :: insertSorted x ys

/-- Python `sorted` on a list of strings (insertion sort; the order on
distinct strings is strict and total, so stability is irrelevant). -/
def pySorted (l : List Str) : List Str := l.foldr insertSorted []

/-- Model of `_list_files_sync`.  `fs` is the abstraction of the `os.walk` over the
storage root: the list of relative forward-slash paths of the files below
it, each listed once.  `recent` is `_recent_files`, `st` the cache globals,
`now` the value of `time.time()`.  Returns the updated cache state and the
returned listing. -/
def listFilesSync (fs : List Str) (recent : List Str) (st : CacheState)
    (now : Nat) : CacheState × List Str :=
  let st2 :=
    if st.fileCache = none ∨ st.lastUpdate = 0 ∨ now - st.lastUpdate > CACHE_TIMEOUT then
      { fileCache := some (pySorted (fs.filter allowedExtBool)), lastUpdate := now }
    else st
  let cache := st2.fileCache.getD []
  let recentFiles := recent.take NUM_RECENT_FILES
  let remaining := cache.filter (fun f => !(recent.contains f))
  (st2, recentFiles ++ remaining)

/-! ## view_file (app.py lines 184-243) -/

/-- Outcome of `open(file_path, encoding="utf-8").read()` for the HTML
branch: success, a `UnicodeDecodeError`, or any other exception. -/
inductive HtmlRead
  | ok
  | unicodeErr
  | otherErr
deriving DecidableEq

/-- Status and updated `_recent_files` produced by `view_file` (for the
template-rendering branches only the 200 status is relevant here). -/
structure ViewResult where
  status : Nat
  recent : List Str
deriving DecidableEq

/-- The `_recent_files` update in `view_file` (lines 200-203): remove a
prior occurrence, insert at the front, trim to `NUM_RECENT_FILES`. -/
def updateRecent (recent : List Str) (filename : Str) : List Str :=
  let r := if recent.contains filename then recent.erase filename else recent
  (filename :: r).take NUM_RECENT_FILES

/-- Model of `view_file`.  `isFile` models `os.path.isfile`; `htmlRead` models the
UTF-8 read of an HTML file.  The PDF and EPUB template branches render a
viewer page with status 200. -/
def view_file (storage : Str) (isFile : Str → Bool) (htmlRead : Str → HtmlRead)
    (recent : List Str) (filename : Str) : ViewResult :=
  let file_path := pathJoin storage filename
  if !((realpathModel storage).isPrefixOf (realpathModel file_path)) then
    ⟨403, recent⟩
  else if !(isFile file_path) then
    ⟨404, recent⟩
  else
    let recent2 := updateRecent recent filename
    let ext := extLower filename
    if ext = ".pdf".toList then ⟨200, recent2⟩
    else if ext = ".epub".toList then ⟨200, recent2⟩
    else if ext = ".html".toList ∨ ext = ".htm".toList then
      match htmlRead file_path with
      | .ok => ⟨200, recent2⟩
      | .unicodeErr => ⟨415, recent2⟩
      | .otherErr => ⟨500, recent2⟩
    else ⟨415, recent2⟩

/-! ## serve_file (app.py lines 246-377) -/

/-- The observable parts of a `serve_file` response used by the claims:
status, the `Content-Range` and `Content-Length` headers when explicitly
set by the range branch, and the file bytes contained in the body
(empty for the 403, 404 and 416 text responses). -/
structure ServeResult where
  status : Nat
  contentRange : Option Str := none
  contentLength : Option Str := none
  fileBytes : List Nat := []
deriving DecidableEq

/-- The full-file response (`web.FileResponse`, status 200). -/
def fullResponse (data : List Nat) : ServeResult :=
  { status := 200, fileBytes := data }

/-- The `start`/`end` bounds computed from `ranges = range_str.split("-")`:
`start` defaults to 0, `end` to `file_size - 1`; a nonempty piece is parsed
with `int(...)`.  `none` models a raised `ValueError`, which the handler
catches by falling back to the full file. -/
def parsedRange (file_size : Nat) (ranges : List Str) : Option (Int × Int) :=
  let startO : Option Int :=
    if ranges.headD [] = [] then some 0 else pyInt (ranges.headD [])
  let stopO : Option Int :=
    if ranges.length > 1 ∧ ranges.getD 1 [] ≠ [] then pyInt (ranges.getD 1 [])
    else some ((file_size : Int) - 1)
  match startO, stopO with
  | some a, some b => some (a, b)
  | _, _ => none

/-- The Range branch of `serve_file` (lines 314-367): on a header that does
not start with `bytes=`, or on any parse exception, control falls through to
the full-file `FileResponse`; an out-of-bounds range gets 416; a valid range
gets 206 with the requested span read by a seek to `start` and a read of
`end - start + 1` bytes. -/
def handleRange (data : List Nat) (range_header : Str) : ServeResult :=
  let file_size := data.length
  if ("bytes=".toList).isPrefixOf range_header then
    let ranges := splitChar '-' (range_header.drop 6)
    match parsedRange file_size ranges with
    | none => fullResponse data
    | some (start, stop) =>
      if start < 0 ∨ stop ≥ (file_size : Int) ∨ start > stop then
        { status := 416
          contentRange := some ("bytes */".toList ++ natToStr file_size) }
      else
        let content_length := stop - start + 1
        { status := 206
          contentRange := some ("bytes ".toList ++ intToStr start ++ "-".toList ++
            intToStr stop ++ "/".toList ++ natToStr file_size)
          contentLength := some (intToStr content_length)
          fileBytes := (data.drop start.toNat).take content_length.toNat }
  else fullResponse data

/-- Model of `serve_file` for a GET request.  `filename` is the route parameter,
URL-decoded once more by the handler; `isFile` models `os.path.isfile`;
`content` gives the bytes of a file, so `os.path.getsize` is its length.
The header-only aspects (Content-Type, CORS, Cache-Control) and the OPTIONS
short-circuit set no fields modelled here and are omitted. -/
def serve_file (storage : Str) (isFile : Str → Bool) (content : Str → List Nat)
    (rangeHeader : Option Str) (filename : Str) : ServeResult :=
  let decoded := unquoteChars filename
  let file_path := pathJoin storage decoded
  if !((realpathModel storage).isPrefixOf (realpathModel file_path)) then
    { status := 403 }
  else if !(isFile file_path) then
    { status := 404 }
  else
    match rangeHeader with
    | some h => handleRange (content file_path) h
    | none => fullResponse (content file_path)

/-- Keep-first-occurrence deduplication: the distinct elements of a list in
order of first appearance. -/
def firstDedup : List Str → List Str
  | [] => []
  | x :: xs => x :: (firstDedup xs).filter (fun y => y ≠ x)


/-! ## Digit-string and parsing lemmas -/

theorem digit_not_space {c : Char} (h : c.isDigit = true) : pyIsSpace c = false := by
  cases hb : pyIsSpace c
  · rfl
  · exfalso
    simp only [pyIsSpace, Bool.or_eq_true, decide_eq_true_eq] at hb
    rcases hb with ((((h1 | h1) | h1) | h1) | h1) | h1 <;> subst h1 <;>
      exact absurd h (by decide)

theorem digit_ne {c d : Char} (h : c.isDigit = true) (hd : d.isDigit = false) : c ≠ d := by
  intro he
  subst he
  rw [h] at hd
  exact absurd hd (by simp)

theorem dropWhile_space_digits {s : Str} (h : s.all Char.isDigit = true) :
    s.dropWhile pyIsSpace = s := by
  cases s with
  | nil => rfl
  | cons c t =>
    have hc : c.isDigit = true := (List.all_eq_true.mp h) c (List.mem_cons_self c t)
    rw [List.dropWhile_cons, digit_not_space hc]
    simp

theorem pyStrip_digits {s : Str} (h : s.all Char.isDigit = true) : pyStrip s = s := by
  have hrev : s.reverse.all Char.isDigit = true := by
    rw [List.all_eq_true] at h ⊢
    intro x hx
    exact h x (List.mem_reverse.mp hx)
  unfold pyStrip
  rw [dropWhile_space_digits h, dropWhile_space_digits hrev, List.reverse_reverse]

theorem udTail_cons (c : Char) (rest : Str) :
    udTail (c :: rest) =
      if c = '_' then
        (match rest with
         | [] => false
         | d :: rest2 => d.isDigit && udTail rest2)
      else c.isDigit && udTail rest := by
  rw [udTail.eq_def]
  rfl

theorem udTail_digits {s : Str} (h : s.all Char.isDigit = true) : udTail s = true := by
  induction s with
  | nil => rfl
  | cons c t ih =>
    have hc : c.isDigit = true := (List.all_eq_true.mp h) c (List.mem_cons_self c t)
    have ht : t.all Char.isDigit = true := by
      rw [List.all_eq_true] at h ⊢
      intro x hx
      exact h x (List.mem_cons_of_mem c hx)
    rw [udTail_cons, if_neg (digit_ne hc (by decide)), hc, ih ht]
    rfl

theorem digitsOk_digits {s : Str} (hne : s ≠ []) (h : s.all Char.isDigit = true) :
    digitsOk s = true := by
  cases s with
  | nil => exact absurd rfl hne
  | cons c t =>
    have hc : c.isDigit = true := (List.all_eq_true.mp h) c (List.mem_cons_self c t)
    have ht : t.all Char.isDigit = true := by
      rw [List.all_eq_true] at h ⊢
      intro x hx
      exact h x (List.mem_cons_of_mem c hx)
    simp only [digitsOk]
    rw [hc, udTail_digits ht]
    rfl

theorem udVal_digits {s : Str} (h : s.all Char.isDigit = true) : udVal s = digitsVal s := by
  unfold udVal
  congr 1
  rw [List.filter_eq_self]
  intro a ha
  have : a.isDigit = true := (List.all_eq_true.mp h) a ha
  simpa using digit_ne this (by decide)

theorem pyInt_digits {s : Str} (hne : s ≠ []) (h : s.all Char.isDigit = true) :
    pyInt s = some ((digitsVal s : Nat) : Int) := by
  unfold pyInt
  rw [pyStrip_digits h]
  cases s with
  | nil => exact absurd rfl hne
  | cons c t =>
    have hc : c.isDigit = true := (List.all_eq_true.mp h) c (List.mem_cons_self c t)
    simp only [pyIntCore]
    rw [if_neg (digit_ne hc (by decide)), if_neg (digit_ne hc (by decide)),
      if_pos (digitsOk_digits (by simp) h), udVal_digits h]

/-! ## splitChar lemmas -/

theorem splitChar_cons (c x : Char) (xs : Str) :
    splitChar c (x :: xs) =
      match splitChar c xs with
      | r :: rs => if x = c then [] :: r :: rs else (x :: r) :: rs
      | [] => [[]] := by
  simp only [splitChar]

theorem splitChar_ne_nil (c : Char) (s : Str) : splitChar c s ≠ [] := by
  cases s with
  | nil => simp [splitChar]
  | cons x xs =>
    rw [splitChar_cons]
    cases splitChar c xs with
    | nil => simp
    | cons r rs => by_cases hx : x = c <;> simp [hx]

theorem splitChar_not_mem {c : Char} {s : Str} (h : c ∉ s) : splitChar c s = [s] := by
  induction s with
  | nil => rfl
  | cons x xs ih =>
    have hx : x ≠ c := fun he => h (he ▸ List.mem_cons_self x xs)
    have hxs : c ∉ xs := fun hm => h (List.mem_cons_of_mem x hm)
    rw [splitChar_cons, ih hxs]
    simp [hx]

theorem splitChar_append {c : Char} {s t : Str} (h : c ∉ s) :
    splitChar c (s ++ c :: t) = s :: splitChar c t := by
  induction s with
  | nil =>
    simp only [List.nil_append]
    rw [splitChar_cons]
    cases hsp : splitChar c t with
    | nil => exact absurd hsp (splitChar_ne_nil c t)
    | cons r rs => simp
  | cons x xs ih =>
    have hx : x ≠ c := fun he => h (he ▸ List.mem_cons_self x xs)
    have hxs : c ∉ xs := fun hm => h (List.mem_cons_of_mem x hm)
    rw [List.cons_append, splitChar_cons, ih hxs]
    simp [hx]

theorem digits_no_dash {s : Str} (h : s.all Char.isDigit = true) : '-' ∉ s := by
  intro hm
  have := (List.all_eq_true.mp h) '-' hm
  exact absurd this (by decide)
/-! ## handleRange lemmas -/

theorem intToStr_natCast (n : Nat) : intToStr ((n : Nat) : Int) = natToStr n := by
  unfold intToStr
  rw [if_neg (by omega), Int.natAbs_ofNat]

theorem parsedRange_digits (L : Nat) (s e : Str) (hs : s ≠ [])
    (hds : s.all Char.isDigit = true) (he : e ≠ []) (hde : e.all Char.isDigit = true) :
    parsedRange L [s, e] = some (((digitsVal s : Nat) : Int), ((digitsVal e : Nat) : Int)) := by
  unfold parsedRange
  simp only [List.headD, List.length_cons, List.length_nil, List.getD_cons_succ,
    List.getD_cons_zero]
  rw [if_neg hs, if_pos ⟨by norm_num, he⟩, pyInt_digits hs hds, pyInt_digits he hde]

theorem drop_bytes_eq (r : Str) : ("bytes=".toList ++ r).drop 6 = r := by
  have h6 : (6 : Nat) = ("bytes=".toList).length := by decide
  rw [h6, List.drop_left]

theorem isPre_append (l r : Str) : l.isPrefixOf (l ++ r) = true := by
  induction l with
  | nil => simp [List.isPrefixOf]
  | cons a t ih => simp [List.isPrefixOf, ih]

theorem bytes_isPre (r : Str) :
    ("bytes=".toList).isPrefixOf ("bytes=".toList ++ r) = true :=
  isPre_append _ r

/-- The 206 branch on a well-formed in-bounds range `bytes=s-e`. -/
theorem handleRange_valid (data : List Nat) (s e : Str) (hs : s ≠ [])
    (hds : s.all Char.isDigit = true) (he : e ≠ []) (hde : e.all Char.isDigit = true)
    (hle : digitsVal s ≤ digitsVal e) (hlt : digitsVal e < data.length) :
    handleRange data ("bytes=".toList ++ (s ++ '-' :: e)) =
      { status := 206
        contentRange := some ("bytes ".toList ++ natToStr (digitsVal s) ++ "-".toList ++
          natToStr (digitsVal e) ++ "/".toList ++ natToStr data.length)
        contentLength := some (natToStr (digitsVal e - digitsVal s + 1))
        fileBytes := (data.drop (digitsVal s)).take (digitsVal e - digitsVal s + 1) } := by
  have hsplit : splitChar '-' (s ++ '-' :: e) = [s, e] := by
    rw [splitChar_append (digits_no_dash hds), splitChar_not_mem (digits_no_dash hde)]
  unfold handleRange
  rw [bytes_isPre]
  simp only [if_true, drop_bytes_eq, hsplit,
    parsedRange_digits data.length s e hs hds he hde]
  rw [if_neg (by omega)]
  have htn : ((digitsVal s : Nat) : Int).toNat = digitsVal s := Int.toNat_natCast _
  have hlen : (((digitsVal e : Nat) : Int) - ((digitsVal s : Nat) : Int) + 1) =
      (((digitsVal e - digitsVal s + 1 : Nat) : Nat) : Int) := by omega
  rw [hlen, intToStr_natCast, intToStr_natCast, intToStr_natCast]
  simp only [Int.toNat_natCast]

/-- The 416 branch on a well-formed out-of-bounds range `bytes=s-e`. -/
theorem handleRange_invalid (data : List Nat) (s e : Str) (hs : s ≠ [])
    (hds : s.all Char.isDigit = true) (he : e ≠ []) (hde : e.all Char.isDigit = true)
    (hbad : digitsVal e < digitsVal s ∨ data.length ≤ digitsVal e) :
    handleRange data ("bytes=".toList ++ (s ++ '-' :: e)) =
      { status := 416
        contentRange := some ("bytes */".toList ++ natToStr data.length) } := by
  have hsplit : splitChar '-' (s ++ '-' :: e) = [s, e] := by
    rw [splitChar_append (digits_no_dash hds), splitChar_not_mem (digits_no_dash hde)]
  unfold handleRange
  rw [bytes_isPre]
  simp only [if_true, drop_bytes_eq, hsplit,
    parsedRange_digits data.length s e hs hds he hde]
  rw [if_pos (by omega)]

/-- The suffix form `bytes=-e`: the empty first piece leaves `start = 0`. -/
theorem parsedRange_suffix (L : Nat) (e : Str) (he : e ≠ [])
    (hde : e.all Char.isDigit = true) :
    parsedRange L [[], e] = some (0, ((digitsVal e : Nat) : Int)) := by
  unfold parsedRange
  simp only [List.headD, List.length_cons, List.length_nil, List.getD_cons_succ,
    List.getD_cons_zero, if_true]
  rw [if_pos ⟨by norm_num, he⟩, pyInt_digits he hde]

theorem handleRange_suffix_small (data : List Nat) (e : Str) (he : e ≠ [])
    (hde : e.all Char.isDigit = true) (hlt : digitsVal e < data.length) :
    handleRange data ("bytes=".toList ++ ('-' :: e)) =
      { status := 206
        contentRange := some ("bytes ".toList ++ natToStr 0 ++ "-".toList ++
          natToStr (digitsVal e) ++ "/".toList ++ natToStr data.length)
        contentLength := some (natToStr (digitsVal e + 1))
        fileBytes := data.take (digitsVal e + 1) } := by
  have hsplit : splitChar '-' ('-' :: e) = [[], e] := by
    have : ('-' :: e) = ([] : Str) ++ '-' :: e := rfl
    rw [this, splitChar_append (by simp), splitChar_not_mem (digits_no_dash hde)]
  unfold handleRange
  rw [bytes_isPre]
  simp only [if_true, drop_bytes_eq, hsplit, parsedRange_suffix data.length e he hde]
  rw [if_neg (by omega)]
  have hlen : (((digitsVal e : Nat) : Int) - 0 + 1) =
      (((digitsVal e + 1 : Nat) : Nat) : Int) := by omega
  rw [hlen, intToStr_natCast]
  have h0 : intToStr 0 = natToStr 0 := rfl
  rw [h0, intToStr_natCast]
  simp only [Int.toNat_natCast, Int.toNat_zero, List.drop_zero]

theorem handleRange_suffix_large (data : List Nat) (e : Str) (he : e ≠ [])
    (hde : e.all Char.isDigit = true) (hge : data.length ≤ digitsVal e) :
    handleRange data ("bytes=".toList ++ ('-' :: e)) =
      { status := 416
        contentRange := some ("bytes */".toList ++ natToStr data.length) } := by
  have hsplit : splitChar '-' ('-' :: e) = [[], e] := by
    have : ('-' :: e) = ([] : Str) ++ '-' :: e := rfl
    rw [this, splitChar_append (by simp), splitChar_not_mem (digits_no_dash hde)]
  unfold handleRange
  rw [bytes_isPre]
  simp only [if_true, drop_bytes_eq, hsplit, parsedRange_suffix data.length e he hde]
  rw [if_pos (by omega)]

/-- A header that does not start with `bytes=` falls through to the full file. -/
theorem handleRange_not_bytes (data : List Nat) (h : Str)
    (hnb : ("bytes=".toList).isPrefixOf h = false) :
    handleRange data h = fullResponse data := by
  unfold handleRange
  rw [hnb]
  simp

/-- A parse failure (raised `ValueError`) falls through to the full file. -/
theorem handleRange_parse_none (data : List Nat) (h : Str)
    (hb : ("bytes=".toList).isPrefixOf h = true)
    (hp : parsedRange data.length (splitChar '-' (h.drop 6)) = none) :
    handleRange data h = fullResponse data := by
  unfold handleRange
  rw [hb]
  simp only [if_true, hp]

/-- When the path check and the existence check pass, a GET with a Range
header reduces to the range branch. -/
theorem serve_file_range (storage fn : Str) (isFile : Str → Bool)
    (content : Str → List Nat) (h : Str)
    (hp : (realpathModel storage).isPrefixOf
      (realpathModel (pathJoin storage (unquoteChars fn))) = true)
    (hf : isFile (pathJoin storage (unquoteChars fn)) = true) :
    serve_file storage isFile content (some h) fn =
      handleRange (content (pathJoin storage (unquoteChars fn))) h := by
  simp [serve_file, hp, hf]
/-! ## Open-ended range `bytes=s-` -/

theorem parsedRange_open (L : Nat) (s : Str) (hs : s ≠ [])
    (hds : s.all Char.isDigit = true) :
    parsedRange L [s, []] = some (((digitsVal s : Nat) : Int), (L : Int) - 1) := by
  unfold parsedRange
  simp only [List.headD, List.length_cons, List.length_nil, List.getD_cons_succ,
    List.getD_cons_zero]
  rw [if_neg hs, if_neg (by simp), pyInt_digits hs hds]

theorem handleRange_open_end (data : List Nat) (s : Str) (hs : s ≠ [])
    (hds : s.all Char.isDigit = true) (hlt : digitsVal s < data.length) :
    handleRange data ("bytes=".toList ++ (s ++ ['-'])) =
      { status := 206
        contentRange := some ("bytes ".toList ++ natToStr (digitsVal s) ++ "-".toList ++
          natToStr (data.length - 1) ++ "/".toList ++ natToStr data.length)
        contentLength := some (natToStr (data.length - 1 - digitsVal s + 1))
        fileBytes := (data.drop (digitsVal s)).take (data.length - 1 - digitsVal s + 1) } := by
  have hsplit : splitChar '-' (s ++ ['-']) = [s, []] := by
    have h1 : s ++ ['-'] = s ++ '-' :: ([] : Str) := rfl
    rw [h1, splitChar_append (digits_no_dash hds)]
    rfl
  unfold handleRange
  rw [bytes_isPre]
  simp only [if_true, drop_bytes_eq, hsplit, parsedRange_open data.length s hs hds]
  rw [if_neg (by omega)]
  have hstop : ((data.length : Int) - 1) = (((data.length - 1 : Nat) : Nat) : Int) := by omega
  have hlen : ((data.length : Int) - 1 - ((digitsVal s : Nat) : Int) + 1) =
      (((data.length - 1 - digitsVal s + 1 : Nat) : Nat) : Int) := by omega
  rw [hlen, intToStr_natCast, hstop, intToStr_natCast, intToStr_natCast]
  simp only [Int.toNat_natCast]

/-! ## Claims C2, C3, C10, C8 -/

/-- C2: for every existing file (path check and existence check passing) of
bytes `data` and every Range header `bytes=start-end` with decimal bounds
satisfying `0 <= start <= end < |data|` (an omitted end defaulting to
`|data| - 1`), `serve_file` returns status 206 with `Content-Range:
bytes start-end/|data|`, `Content-Length = end - start + 1`, and a body of
exactly the bytes from offset `start` through `end` inclusive (a seek to
`start` then a read of `end - start + 1` bytes). -/
theorem C2_valid_range_206 (storage fn : Str) (isFile : Str → Bool)
    (content : Str → List Nat) (data : List Nat)
    (hdata : content (pathJoin storage (unquoteChars fn)) = data)
    (hp : (realpathModel storage).isPrefixOf
      (realpathModel (pathJoin storage (unquoteChars fn))) = true)
    (hf : isFile (pathJoin storage (unquoteChars fn)) = true) :
    (∀ s e : Str, s ≠ [] → s.all Char.isDigit = true →
      e ≠ [] → e.all Char.isDigit = true →
      digitsVal s ≤ digitsVal e → digitsVal e < data.length →
      serve_file storage isFile content (some ("bytes=".toList ++ (s ++ '-' :: e))) fn =
        { status := 206
          contentRange := some ("bytes ".toList ++ natToStr (digitsVal s) ++ "-".toList ++
            natToStr (digitsVal e) ++ "/".toList ++ natToStr data.length)
          contentLength := some (natToStr (digitsVal e - digitsVal s + 1))
          fileBytes := (data.drop (digitsVal s)).take (digitsVal e - digitsVal s + 1) }) ∧
    (∀ s : Str, s ≠ [] → s.all Char.isDigit = true → digitsVal s < data.length →
      serve_file storage isFile content (some ("bytes=".toList ++ (s ++ ['-']))) fn =
        { status := 206
          contentRange := some ("bytes ".toList ++ natToStr (digitsVal s) ++ "-".toList ++
            natToStr (data.length - 1) ++ "/".toList ++ natToStr data.length)
          contentLength := some (natToStr (data.length - 1 - digitsVal s + 1))
          fileBytes := (data.drop (digitsVal s)).take (data.length - 1 - digitsVal s + 1) }) := by
  constructor
  · intro s e hs hds he hde hle hlt
    rw [serve_file_range storage fn isFile content _ hp hf, hdata,
      handleRange_valid data s e hs hds he hde hle hlt]
  · intro s hs hds hlt
    rw [serve_file_range storage fn isFile content _ hp hf, hdata,
      handleRange_open_end data s hs hds hlt]

/-- Witness for C2: a 10-byte file, range `bytes=2-5` gives 206 with
`Content-Range: bytes 2-5/10`, `Content-Length: 4` and bytes 2..5;
range `bytes=7-` gives 206 with bytes 7..9. -/
theorem C2_valid_range_206_witness :
    serve_file "/srv/storage".toList (fun _ => true)
        (fun _ => [10, 11, 12, 13, 14, 15, 16, 17, 18, 19])
        (some "bytes=2-5".toList) "doc.pdf".toList =
      { status := 206
        contentRange := some "bytes 2-5/10".toList
        contentLength := some "4".toList
        fileBytes := [12, 13, 14, 15] } ∧
    serve_file "/srv/storage".toList (fun _ => true)
        (fun _ => [10, 11, 12, 13, 14, 15, 16, 17, 18, 19])
        (some "bytes=7-".toList) "doc.pdf".toList =
      { status := 206
        contentRange := some "bytes 7-9/10".toList
        contentLength := some "3".toList
        fileBytes := [17, 18, 19] } :=
  ⟨(C2_valid_range_206 "/srv/storage".toList "doc.pdf".toList (fun _ => true)
      (fun _ => [10, 11, 12, 13, 14, 15, 16, 17, 18, 19])
      [10, 11, 12, 13, 14, 15, 16, 17, 18, 19] rfl (by decide) rfl).1
      "2".toList "5".toList (by decide) (by decide) (by decide) (by decide)
      (by decide) (by decide),
   (C2_valid_range_206 "/srv/storage".toList "doc.pdf".toList (fun _ => true)
      (fun _ => [10, 11, 12, 13, 14, 15, 16, 17, 18, 19])
      [10, 11, 12, 13, 14, 15, 16, 17, 18, 19] rfl (by decide) rfl).2
      "7".toList (by decide) (by decide) (by decide)⟩

/-- C3: for every existing file and parsed Range header `bytes=start-end`
violating `0 <= start <= end < |data|` (start > end, or end >= |data|),
`serve_file` returns 416 with `Content-Range: bytes */|data|` and serves no
file bytes. -/
theorem C3_invalid_range_416 (storage fn : Str) (isFile : Str → Bool)
    (content : Str → List Nat) (data : List Nat) (s e : Str)
    (hdata : content (pathJoin storage (unquoteChars fn)) = data)
    (hp : (realpathModel storage).isPrefixOf
      (realpathModel (pathJoin storage (unquoteChars fn))) = true)
    (hf : isFile (pathJoin storage (unquoteChars fn)) = true)
    (hs : s ≠ []) (hds : s.all Char.isDigit = true)
    (he : e ≠ []) (hde : e.all Char.isDigit = true)
    (hbad : digitsVal e < digitsVal s ∨ data.length ≤ digitsVal e) :
    serve_file storage isFile content (some ("bytes=".toList ++ (s ++ '-' :: e))) fn =
      { status := 416
        contentRange := some ("bytes */".toList ++ natToStr data.length)
        contentLength := none
        fileBytes := [] } := by
  rw [serve_file_range storage fn isFile content _ hp hf, hdata,
    handleRange_invalid data s e hs hds he hde hbad]

/-- Witness for C3: on a 10-byte file, `bytes=5-4` (start > end) yields 416
with `Content-Range: bytes */10` and an empty byte span. -/
theorem C3_invalid_range_416_witness :
    serve_file "/srv/storage".toList (fun _ => true)
        (fun _ => [10, 11, 12, 13, 14, 15, 16, 17, 18, 19])
        (some "bytes=5-4".toList) "doc.pdf".toList =
      { status := 416
        contentRange := some "bytes */10".toList
        contentLength := none
        fileBytes := [] } :=
  C3_invalid_range_416 "/srv/storage".toList "doc.pdf".toList (fun _ => true)
    (fun _ => [10, 11, 12, 13, 14, 15, 16, 17, 18, 19])
    [10, 11, 12, 13, 14, 15, 16, 17, 18, 19] "5".toList "4".toList rfl
    (by decide) rfl (by decide) (by decide) (by decide) (by decide) (by decide)

/-- C10: a suffix-form header `bytes=-N` is interpreted with `start = 0` and
`end = N` (the span of the first `N + 1` bytes), not as the last `N` bytes:
for `N < |data|` the result is 206 with `Content-Range: bytes 0-N/|data|`
and the first `N + 1` bytes; for `N >= |data|` it is 416. -/
theorem C10_suffix_range (storage fn : Str) (isFile : Str → Bool)
    (content : Str → List Nat) (data : List Nat) (e : Str)
    (hdata : content (pathJoin storage (unquoteChars fn)) = data)
    (hp : (realpathModel storage).isPrefixOf
      (realpathModel (pathJoin storage (unquoteChars fn))) = true)
    (hf : isFile (pathJoin storage (unquoteChars fn)) = true)
    (he : e ≠ []) (hde : e.all Char.isDigit = true) :
    (digitsVal e < data.length →
      serve_file storage isFile content (some ("bytes=".toList ++ ('-' :: e))) fn =
        { status := 206
          contentRange := some ("bytes ".toList ++ natToStr 0 ++ "-".toList ++
            natToStr (digitsVal e) ++ "/".toList ++ natToStr data.length)
          contentLength := some (natToStr (digitsVal e + 1))
          fileBytes := data.take (digitsVal e + 1) }) ∧
    (data.length ≤ digitsVal e →
      serve_file storage isFile content (some ("bytes=".toList ++ ('-' :: e))) fn =
        { status := 416
          contentRange := some ("bytes */".toList ++ natToStr data.length)
          contentLength := none
          fileBytes := [] }) := by
  constructor
  · intro hlt
    rw [serve_file_range storage fn isFile content _ hp hf, hdata,
      handleRange_suffix_small data e he hde hlt]
  · intro hge
    rw [serve_file_range storage fn isFile content _ hp hf, hdata,
      handleRange_suffix_large data e he hde hge]

/-- Witness for C10: on a 10-byte file, `bytes=-3` yields 206 with
`Content-Range: bytes 0-3/10` and the first 4 bytes (not the last 3);
`bytes=-10` yields 416. -/
theorem C10_suffix_range_witness :
    serve_file "/srv/storage".toList (fun _ => true)
        (fun _ => [10, 11, 12, 13, 14, 15, 16, 17, 18, 19])
        (some "bytes=-3".toList) "doc.pdf".toList =
      { status := 206
        contentRange := some "bytes 0-3/10".toList
        contentLength := some "4".toList
        fileBytes := [10, 11, 12, 13] } ∧
    serve_file "/srv/storage".toList (fun _ => true)
        (fun _ => [10, 11, 12, 13, 14, 15, 16, 17, 18, 19])
        (some "bytes=-10".toList) "doc.pdf".toList =
      { status := 416
        contentRange := some "bytes */10".toList
        contentLength := none
        fileBytes := [] } :=
  ⟨(C10_suffix_range "/srv/storage".toList "doc.pdf".toList (fun _ => true)
      (fun _ => [10, 11, 12, 13, 14, 15, 16, 17, 18, 19])
      [10, 11, 12, 13, 14, 15, 16, 17, 18, 19] "3".toList rfl (by decide) rfl
      (by decide) (by decide)).1 (by decide),
   (C10_suffix_range "/srv/storage".toList "doc.pdf".toList (fun _ => true)
      (fun _ => [10, 11, 12, 13, 14, 15, 16, 17, 18, 19])
      [10, 11, 12, 13, 14, 15, 16, 17, 18, 19] "10".toList rfl (by decide) rfl
      (by decide) (by decide)).2 (by decide)⟩

/-- C8: on an existing file, a Range header that does not begin with
`bytes=`, or whose handling raises a parse exception (modelled by
`parsedRange = none`, e.g. a non-integer bound), is not answered with an
error: `serve_file` silently serves the complete file with status 200. -/
theorem C8_silent_fallback (storage fn : Str) (isFile : Str → Bool)
    (content : Str → List Nat) (data : List Nat) (header : Str)
    (hdata : content (pathJoin storage (unquoteChars fn)) = data)
    (hp : (realpathModel storage).isPrefixOf
      (realpathModel (pathJoin storage (unquoteChars fn))) = true)
    (hf : isFile (pathJoin storage (unquoteChars fn)) = true) :
    (("bytes=".toList).isPrefixOf header = false →
      serve_file storage isFile content (some header) fn = fullResponse data) ∧
    (("bytes=".toList).isPrefixOf header = true →
      parsedRange data.length (splitChar '-' (header.drop 6)) = none →
      serve_file storage isFile content (some header) fn = fullResponse data) := by
  constructor
  · intro hnb
    rw [serve_file_range storage fn isFile content _ hp hf, hdata,
      handleRange_not_bytes data header hnb]
  · intro hb hpn
    rw [serve_file_range storage fn isFile content _ hp hf, hdata,
      handleRange_parse_none data header hb hpn]

/-- Witness for C8: the headers `items=0-5` (wrong unit) and `bytes=abc-2`
(non-integer bound raising `ValueError`) both get the complete 10-byte file
with status 200. -/
theorem C8_silent_fallback_witness :
    serve_file "/srv/storage".toList (fun _ => true)
        (fun _ => [10, 11, 12, 13, 14, 15, 16, 17, 18, 19])
        (some "items=0-5".toList) "doc.pdf".toList =
      fullResponse [10, 11, 12, 13, 14, 15, 16, 17, 18, 19] ∧
    serve_file "/srv/storage".toList (fun _ => true)
        (fun _ => [10, 11, 12, 13, 14, 15, 16, 17, 18, 19])
        (some "bytes=abc-2".toList) "doc.pdf".toList =
      fullResponse [10, 11, 12, 13, 14, 15, 16, 17, 18, 19] :=
  ⟨(C8_silent_fallback "/srv/storage".toList "doc.pdf".toList (fun _ => true)
      (fun _ => [10, 11, 12, 13, 14, 15, 16, 17, 18, 19])
      [10, 11, 12, 13, 14, 15, 16, 17, 18, 19] "items=0-5".toList rfl
      (by decide) rfl).1 (by decide),
   (C8_silent_fallback "/srv/storage".toList "doc.pdf".toList (fun _ => true)
      (fun _ => [10, 11, 12, 13, 14, 15, 16, 17, 18, 19])
      [10, 11, 12, 13, 14, 15, 16, 17, 18, 19] "bytes=abc-2".toList rfl
      (by decide) rfl).2 (by decide) (by decide)⟩
/-! ## Claim C1: the path check -/

/-- C1 (failing input): with storage root `/srv/storage` and requested
filename `../storage2/a.pdf`, the canonical resolved path is
`/srv/storage2/a.pdf`, which does not lie beneath the storage root; the
claim demands 403 from both handlers, but the `startswith` comparison of
canonical paths accepts the sibling directory whose name extends the
name of the root, so both handlers pass the check and answer 404 from the existence
test (and would serve the file if it existed). -/
theorem C1_prefix_check_bypass :
    liesBeneathBool (realpathModel "/srv/storage".toList)
      (realpathModel (pathJoin "/srv/storage".toList "../storage2/a.pdf".toList)) = false ∧
    (view_file "/srv/storage".toList (fun _ => false) (fun _ => HtmlRead.ok) []
      "../storage2/a.pdf".toList).status = 404 ∧
    (serve_file "/srv/storage".toList (fun _ => false) (fun _ => [])
      none "../storage2/a.pdf".toList).status = 404 := by
  decide

/-! ## Claim C9: non-UTF-8 HTML -/

/-- C9 (counterexample): viewing an existing `page.html` under the root
whose contents are not valid UTF-8 returns status 415, not the claimed 500. -/
theorem C9_counterexample :
    (view_file "/srv/storage".toList (fun _ => true) (fun _ => HtmlRead.unicodeErr) []
      "page.html".toList).status = 415 ∧
    ¬ (view_file "/srv/storage".toList (fun _ => true) (fun _ => HtmlRead.unicodeErr) []
      "page.html".toList).status = 500 := by
  decide

/-- C9 (amended): when `/view/` is requested for an existing `.html` or
`.htm` file under the storage root whose contents are not valid UTF-8,
`view_file` answers 415 (`Unsupported encoding`); the 500 response is
reserved for any other exception while reading the file. -/
theorem C9_nonutf8_html_415 (storage fn : Str) (isFile : Str → Bool)
    (htmlRead : Str → HtmlRead) (recent : List Str)
    (hp : (realpathModel storage).isPrefixOf (realpathModel (pathJoin storage fn)) = true)
    (hf : isFile (pathJoin storage fn) = true)
    (hext : extLower fn = ".html".toList ∨ extLower fn = ".htm".toList) :
    (htmlRead (pathJoin storage fn) = HtmlRead.unicodeErr →
      (view_file storage isFile htmlRead recent fn).status = 415) ∧
    (htmlRead (pathJoin storage fn) = HtmlRead.otherErr →
      (view_file storage isFile htmlRead recent fn).status = 500) := by
  have hnp : ¬ extLower fn = ".pdf".toList := by
    rcases hext with h | h <;> rw [h] <;> decide
  have hne : ¬ extLower fn = ".epub".toList := by
    rcases hext with h | h <;> rw [h] <;> decide
  constructor <;> intro hr <;>
    · simp only [view_file, hp, hf, Bool.not_true, Bool.false_eq_true, if_false]
      rw [if_neg hnp, if_neg hne, if_pos hext, hr]

/-- Witness for C9 amended: a non-UTF-8 `page.html` gets 415. -/
theorem C9_nonutf8_html_415_witness :
    (view_file "/srv/storage".toList (fun _ => true) (fun _ => HtmlRead.unicodeErr) []
      "page.html".toList).status = 415 :=
  (C9_nonutf8_html_415 "/srv/storage".toList "page.html".toList (fun _ => true)
    (fun _ => HtmlRead.unicodeErr) [] (by decide) rfl (Or.inl (by decide))).1 rfl

/-! ## Claim C7: the recent-files list -/

/-- C7 (counterexample): viewing an existing `notes.txt` is not a
successful view (the dispatch rejects it with 415 unsupported media type),
yet the filename is recorded at the front of the recent-files list. -/
theorem C7_counterexample :
    (view_file "/srv/storage".toList (fun _ => true) (fun _ => HtmlRead.ok) []
      "notes.txt".toList).status = 415 ∧
    (view_file "/srv/storage".toList (fun _ => true) (fun _ => HtmlRead.ok) []
      "notes.txt".toList).recent = ["notes.txt".toList] := by
  decide

theorem nodup_firstDedup (l : List Str) : (firstDedup l).Nodup := by
  induction l with
  | nil => exact List.nodup_nil
  | cons x xs ih =>
    rw [firstDedup]
    refine List.nodup_cons.mpr ⟨?_, List.Nodup.filter _ ih⟩
    intro hmem
    have := (List.mem_filter.mp hmem).2
    simp at this

theorem take_erase_take (x : Str) : ∀ (l : List Str) (n : Nat),
    ((l.take (n + 1)).erase x).take n = (l.erase x).take n := by
  intro l
  induction l with
  | nil => intro n; rfl
  | cons a t ih =>
    intro n
    by_cases hax : a = x
    · subst hax
      rw [List.take_succ_cons, List.erase_cons_head, List.erase_cons_head, List.take_take]
      simp
    · rw [List.take_succ_cons, List.erase_cons_tail (by simp [hax]),
        List.erase_cons_tail (by simp [hax])]
      cases n with
      | zero => rfl
      | succ m => rw [List.take_succ_cons, List.take_succ_cons, ih m]

theorem nodup_erase_eq_filter (x : Str) {l : List Str} (h : l.Nodup) :
    l.erase x = l.filter (fun y => y ≠ x) := by
  rw [List.Nodup.erase_eq_filter h]
  exact List.filter_congr (fun a _ => by by_cases hax : a = x <;> simp [hax])

theorem updateRecent_eq (r : List Str) (f : Str) :
    updateRecent r f = (f :: r.erase f).take NUM_RECENT_FILES := by
  unfold updateRecent
  by_cases hm : r.contains f = true
  · rw [if_pos hm]
  · rw [if_neg hm, List.erase_of_not_mem]
    intro hmem
    exact hm (List.elem_iff.mpr hmem)

/-- The fold of `updateRecent` over an arbitrary sequence of recorded
filenames equals the first `NUM_RECENT_FILES` distinct filenames of the
reversed sequence: the most recently recorded distinct names, newest
first. -/
theorem recent_trace (seq : List Str) :
    seq.foldl updateRecent [] = (firstDedup seq.reverse).take NUM_RECENT_FILES := by
  induction seq using List.reverseRecOn with
  | nil => rfl
  | append_singleton s x ih =>
    rw [List.foldl_append, List.foldl_cons, List.foldl_nil, ih, updateRecent_eq,
      List.reverse_append]
    simp only [List.reverse_cons, List.reverse_nil, List.nil_append, List.singleton_append]
    rw [firstDedup]
    have h5 : NUM_RECENT_FILES = 4 + 1 := rfl
    rw [h5, List.take_succ_cons, List.take_succ_cons,
      take_erase_take x (firstDedup s.reverse) 4,
      nodup_erase_eq_filter x (nodup_firstDedup s.reverse)]

/-- C7 (amended): `view_file` records the requested filename at the front
of the recent-files list (removing a prior occurrence, trimming to 5)
whenever the traversal check and the existence check pass — even when the
subsequent dispatch fails with 415 or 500 — and leaves the list unchanged
when either check fails; consequently, after any sequence of recordings the
list holds the at most 5 most recently recorded distinct filenames,
most-recent first, with no duplicates. -/
theorem C7_recent_files (storage fn : Str) (isFile : Str → Bool)
    (htmlRead : Str → HtmlRead) (recent : List Str) :
    ((realpathModel storage).isPrefixOf (realpathModel (pathJoin storage fn)) = true →
      isFile (pathJoin storage fn) = true →
      (view_file storage isFile htmlRead recent fn).recent = updateRecent recent fn) ∧
    ((realpathModel storage).isPrefixOf (realpathModel (pathJoin storage fn)) = false →
      (view_file storage isFile htmlRead recent fn).recent = recent) ∧
    ((realpathModel storage).isPrefixOf (realpathModel (pathJoin storage fn)) = true →
      isFile (pathJoin storage fn) = false →
      (view_file storage isFile htmlRead recent fn).recent = recent) ∧
    (∀ seq : List Str,
      seq.foldl updateRecent [] = (firstDedup seq.reverse).take NUM_RECENT_FILES ∧
      (seq.foldl updateRecent []).Nodup ∧
      (seq.foldl updateRecent []).length ≤ NUM_RECENT_FILES) := by
  refine ⟨?_, ?_, ?_, ?_⟩
  · intro hp hf
    simp only [view_file, hp, hf, Bool.not_true, Bool.false_eq_true, if_false]
    split
    · rfl
    · split
      · rfl
      · split
        · split <;> rfl
        · rfl
  · intro hp
    simp [view_file, hp]
  · intro hp hf
    simp [view_file, hp, hf]
  · intro seq
    refine ⟨recent_trace seq, ?_, ?_⟩
    · rw [recent_trace seq]
      exact List.Nodup.sublist (List.take_sublist _ _) (nodup_firstDedup _)
    · rw [recent_trace seq]
      exact List.length_take_le _ _

/-- Witness for C7 amended: viewing six distinct files then one of them
again leaves the five most recently viewed, newest first. -/
theorem C7_recent_files_witness :
    (view_file "/srv/storage".toList (fun _ => true) (fun _ => HtmlRead.ok)
      ["b.pdf".toList] "a.pdf".toList).recent =
      updateRecent ["b.pdf".toList] "a.pdf".toList ∧
    (["a", "b", "c", "d", "e", "f", "a"].map String.toList).foldl updateRecent [] =
      (firstDedup (["a", "b", "c", "d", "e", "f", "a"].map String.toList).reverse).take
        NUM_RECENT_FILES :=
  ⟨(C7_recent_files "/srv/storage".toList "a.pdf".toList (fun _ => true)
      (fun _ => HtmlRead.ok) ["b.pdf".toList]).1 (by decide) rfl,
   ((C7_recent_files "/srv/storage".toList "a.pdf".toList (fun _ => true)
      (fun _ => HtmlRead.ok) []).2.2.2
      (["a", "b", "c", "d", "e", "f", "a"].map String.toList)).1⟩
/-! ## The lexicographic string order and insertion sort -/

theorem strLt_cons (a b : Char) (s t : Str) :
    strLt (a :: s) (b :: t) =
      if a.toNat < b.toNat then true
      else if b.toNat < a.toNat then false
      else strLt s t := by
  rw [strLt.eq_def]

theorem strLt_irrefl : ∀ s : Str, strLt s s = false := by
  intro s
  induction s with
  | nil => rfl
  | cons a t ih => rw [strLt_cons, if_neg (by omega), if_neg (by omega), ih]

theorem strLt_asymm : ∀ s t : Str, strLt s t = true → strLt t s = false := by
  intro s
  induction s with
  | nil =>
    intro t ht
    cases t with
    | nil => simp [strLt] at ht
    | cons b t' => rfl
  | cons a s' ih =>
    intro t ht
    cases t with
    | nil => simp [strLt] at ht
    | cons b t' =>
      rw [strLt_cons] at ht
      rw [strLt_cons]
      rcases Nat.lt_trichotomy a.toNat b.toNat with h1 | h1 | h1
      · rw [if_neg (by omega), if_pos h1]
      · rw [if_neg (by omega), if_neg (by omega)]
        rw [if_neg (by omega), if_neg (by omega)] at ht
        exact ih t' ht
      · rw [if_neg (by omega), if_pos h1] at ht
        exact absurd ht (by simp)

theorem strLt_trans : ∀ s t u : Str, strLt s t = true → strLt t u = true →
    strLt s u = true := by
  intro s
  induction s with
  | nil =>
    intro t u hst htu
    cases t with
    | nil => simp [strLt] at hst
    | cons b t' =>
      cases u with
      | nil => simp [strLt] at htu
      | cons c u' => rfl
  | cons a s' ih =>
    intro t u hst htu
    cases t with
    | nil => simp [strLt] at hst
    | cons b t' =>
      cases u with
      | nil => simp [strLt] at htu
      | cons c u' =>
        rw [strLt_cons] at hst htu
        rw [strLt_cons]
        rcases Nat.lt_trichotomy a.toNat b.toNat with h1 | h1 | h1 <;>
          rcases Nat.lt_trichotomy b.toNat c.toNat with h2 | h2 | h2
        · rw [if_pos (by omega)]
        · rw [if_pos (by omega)]
        · rw [if_neg (by omega), if_pos h2] at htu
          exact absurd htu (by simp)
        · rw [if_pos (by omega)]
        · rw [if_neg (by omega), if_neg (by omega)]
          rw [if_neg (by omega), if_neg (by omega)] at hst htu
          exact ih t' u' hst htu
        · rw [if_neg (by omega), if_pos h2] at htu
          exact absurd htu (by simp)
        · rw [if_neg (by omega), if_pos h1] at hst
          exact absurd hst (by simp)
        · rw [if_neg (by omega), if_pos h1] at hst
          exact absurd hst (by simp)
        · rw [if_neg (by omega), if_pos h1] at hst
          exact absurd hst (by simp)

theorem strLt_connex : ∀ s t : Str, strLt s t = false → strLt t s = true ∨ s = t := by
  intro s
  induction s with
  | nil =>
    intro t ht
    cases t with
    | nil => exact Or.inr rfl
    | cons b t' => simp [strLt] at ht
  | cons a s' ih =>
    intro t ht
    cases t with
    | nil => exact Or.inl rfl
    | cons b t' =>
      rw [strLt_cons] at ht
      rw [strLt_cons]
      rcases Nat.lt_trichotomy a.toNat b.toNat with h1 | h1 | h1
      · rw [if_pos h1] at ht
        exact absurd ht (by simp)
      · rw [if_neg (by omega), if_neg (by omega)] at ht
        rcases ih t' ht with h2 | h2
        · exact Or.inl (by rw [if_neg (by omega), if_neg (by omega)]; exact h2)
        · refine Or.inr ?_
          have hab : a = b := Char.ext (UInt32.ext h1)
          rw [hab, h2]
      · exact Or.inl (by rw [if_pos h1])

theorem strLe_of_not {x y : Str} (h : ¬ strLe x y = true) : strLe y x = true := by
  unfold strLe at *
  have h1 : strLt y x = true := by
    cases hc : strLt y x
    · rw [hc] at h
      exact absurd rfl h
    · rfl
  rw [strLt_asymm y x h1]
  rfl

theorem strLe_trans {x y z : Str} (h1 : strLe x y = true) (h2 : strLe y z = true) :
    strLe x z = true := by
  unfold strLe at *
  cases hc : strLt z x
  · rfl
  · exfalso
    have hyx : strLt y x = false := by
      cases hyx : strLt y x
      · rfl
      · rw [hyx] at h1
        exact absurd h1 (by simp)
    have hzy : strLt z y = false := by
      cases hzy : strLt z y
      · rfl
      · rw [hzy] at h2
        exact absurd h2 (by simp)
    rcases strLt_connex y x hyx with h3 | h3
    · rcases strLt_connex z y hzy with h4 | h4
      · have h5 := strLt_trans y z x h4 hc
        rw [h5] at hyx
        exact absurd hyx (by simp)
      · rw [h4] at hc
        rw [hc] at hyx
        exact absurd hyx (by simp)
    · rw [h3] at hzy
      rw [hzy] at hc
      exact absurd hc (by simp)

theorem perm_insertSorted (x : Str) (l : List Str) : (insertSorted x l).Perm (x :: l) := by
  induction l with
  | nil => exact List.Perm.refl _
  | cons y ys ih =>
    unfold insertSorted
    by_cases h : strLe x y = true
    · rw [if_pos h]
    · rw [if_neg h]
      exact (ih.cons y).trans (List.Perm.swap x y ys)

theorem pairwise_insertSorted (x : Str) {l : List Str}
    (h : l.Pairwise (fun a b => strLe a b = true)) :
    (insertSorted x l).Pairwise (fun a b => strLe a b = true) := by
  induction l with
  | nil => simp [insertSorted]
  | cons y ys ih =>
    rw [List.pairwise_cons] at h
    obtain ⟨hy, hys⟩ := h
    unfold insertSorted
    by_cases hxy : strLe x y = true
    · rw [if_pos hxy]
      refine List.pairwise_cons.mpr ⟨?_, List.pairwise_cons.mpr ⟨hy, hys⟩⟩
      intro z hz
      rcases List.mem_cons.mp hz with hz1 | hz2
      · rw [hz1]
        exact hxy
      · exact strLe_trans hxy (hy z hz2)
    · rw [if_neg hxy]
      refine List.pairwise_cons.mpr ⟨?_, ih hys⟩
      intro z hz
      rcases List.mem_cons.mp ((perm_insertSorted x ys).mem_iff.mp hz) with hz1 | hz2
      · rw [hz1]
        exact strLe_of_not hxy
      · exact hy z hz2

theorem perm_pySorted (l : List Str) : (pySorted l).Perm l := by
  induction l with
  | nil => exact List.Perm.refl _
  | cons a t ih =>
    unfold pySorted at *
    rw [List.foldr_cons]
    exact (perm_insertSorted a _).trans (ih.cons a)

theorem pairwise_pySorted (l : List Str) :
    (pySorted l).Pairwise (fun a b => strLe a b = true) := by
  induction l with
  | nil => exact List.Pairwise.nil
  | cons a t ih =>
    unfold pySorted at *
    rw [List.foldr_cons]
    exact pairwise_insertSorted a ih

theorem mem_pySorted {f : Str} {l : List Str} : f ∈ pySorted l ↔ f ∈ l :=
  (perm_pySorted l).mem_iff

/-- Bridge between the structural `BEq` instance picked up by `List.count`
on `Str` and the `DecidableEq`-derived one used by the counting lemmas. -/
theorem count_decEq (f : Str) (l : List Str) :
    l.count f = @List.count Str instBEqOfDecidableEq f l := by
  induction l with
  | nil => rfl
  | cons a t ih =>
    simp only [List.count_cons, ih]
    congr 1
    by_cases h : a = f <;> simp [h]

theorem count_pySorted (f : Str) (l : List Str) : (pySorted l).count f = l.count f := by
  rw [count_decEq, count_decEq]
  exact (perm_pySorted l).count_eq f
/-! ## listFilesSync unfolding lemmas -/

theorem listFilesSync_stale (fs recent : List Str) (st : CacheState) (now : Nat)
    (hstale : st.fileCache = none ∨ st.lastUpdate = 0 ∨
      now - st.lastUpdate > CACHE_TIMEOUT) :
    listFilesSync fs recent st now =
      (⟨some (pySorted (fs.filter allowedExtBool)), now⟩,
        recent.take NUM_RECENT_FILES ++
          (pySorted (fs.filter allowedExtBool)).filter (fun f => !(recent.contains f))) := by
  unfold listFilesSync
  rw [if_pos hstale]
  rfl

theorem listFilesSync_stale_out (fs recent : List Str) (st : CacheState) (now : Nat)
    (hstale : st.fileCache = none ∨ st.lastUpdate = 0 ∨
      now - st.lastUpdate > CACHE_TIMEOUT) :
    (listFilesSync fs recent st now).2 =
      recent.take NUM_RECENT_FILES ++
        (pySorted (fs.filter allowedExtBool)).filter (fun f => !(recent.contains f)) := by
  rw [listFilesSync_stale fs recent st now hstale]

theorem listFilesSync_fresh (fs cache recent : List Str) (st : CacheState) (now : Nat)
    (hc : st.fileCache = some cache) (hl : st.lastUpdate ≠ 0)
    (hfresh : now - st.lastUpdate ≤ CACHE_TIMEOUT) :
    listFilesSync fs recent st now =
      (st, recent.take NUM_RECENT_FILES ++
        cache.filter (fun f => !(recent.contains f))) := by
  unfold listFilesSync
  rw [if_neg (by push_neg; exact ⟨by rw [hc]; simp, hl, hfresh⟩)]
  simp only [hc, Option.getD_some]

theorem contains_false_of_not_mem {l : List Str} {f : Str} (h : f ∉ l) :
    l.contains f = false := by
  cases hx : l.contains f
  · rfl
  · exact absurd (List.elem_iff.mp hx) h

theorem contains_true_of_mem {l : List Str} {f : Str} (h : f ∈ l) :
    l.contains f = true := List.elem_iff.mpr h

/-- Count of a member of a duplicate-free list, at the structural `BEq`. -/
theorem count_eq_one_str {l : List Str} {f : Str} (h : l.Nodup) (hm : f ∈ l) :
    l.count f = 1 := by
  rw [count_decEq]
  exact List.count_eq_one_of_mem h hm

theorem count_eq_zero_str {l : List Str} {f : Str} (h : f ∉ l) : l.count f = 0 :=
  List.count_eq_zero.mpr h

theorem perm_count_str {l₁ l₂ : List Str} (h : l₁.Perm l₂) (f : Str) :
    l₁.count f = l₂.count f := by
  rw [count_decEq, count_decEq]
  exact h.count_eq f

/-! ## Claim C5 -/

/-- C5: when the cache is empty or stale, the re-walk collects exactly the
files below the root whose (case-insensitive) name ends in `.pdf`, `.epub`,
`.html` or `.htm`, sorted lexicographically, and every such file appears
exactly once in the returned listing.  (`fs` is the set of relative
forward-slash paths below the root; `recent` satisfies the invariants
maintained by `view_file`.) -/
theorem C5_relist_exact (fs recent : List Str) (st : CacheState) (now : Nat)
    (hfs : fs.Nodup) (hrec : recent.Nodup) (hlen : recent.length ≤ NUM_RECENT_FILES)
    (hstale : st.fileCache = none ∨ st.lastUpdate = 0 ∨
      now - st.lastUpdate > CACHE_TIMEOUT) :
    ((listFilesSync fs recent st now).1.fileCache =
      some (pySorted (fs.filter allowedExtBool))) ∧
    (pySorted (fs.filter allowedExtBool)).Pairwise (fun a b => strLe a b = true) ∧
    (∀ f, f ∈ pySorted (fs.filter allowedExtBool) ↔ f ∈ fs ∧ allowedExtBool f = true) ∧
    (∀ f, f ∈ fs → allowedExtBool f = true →
      (listFilesSync fs recent st now).2.count f = 1) := by
  refine ⟨?_, pairwise_pySorted _, ?_, ?_⟩
  · rw [listFilesSync_stale fs recent st now hstale]
  · intro f
    rw [mem_pySorted, List.mem_filter]
  · intro f hf hall
    rw [listFilesSync_stale_out fs recent st now hstale, List.count_append]
    by_cases hmem : f ∈ recent
    · rw [List.take_of_length_le hlen, count_eq_one_str hrec hmem,
        count_eq_zero_str (by
          intro hmf
          have := (List.mem_filter.mp hmf).2
          rw [contains_true_of_mem hmem] at this
          exact absurd this (by simp))]
    · have hpred : (fun g => !(recent.contains g)) f = true := by
        simp only [contains_false_of_not_mem hmem]
        rfl
      rw [count_eq_zero_str (fun hmf => hmem ((List.take_sublist _ _).subset hmf)),
        @List.count_filter Str _ _ (fun g => !(recent.contains g)) f
          (pySorted (fs.filter allowedExtBool)) hpred,
        perm_count_str (perm_pySorted _) f, List.count_filter hall,
        count_eq_one_str hfs hf]

/-- Witness for C5: a walk over three files under the root (one with an
uppercase extension, one with a non-allowed extension) collects the two
qualifying ones, sorted, each once. -/
theorem C5_relist_exact_witness :
    ((listFilesSync ["b/doc.PDF".toList, "a.epub".toList, "x.txt".toList]
        ["a.epub".toList] clearedCache 50).1.fileCache =
      some (pySorted (["b/doc.PDF".toList, "a.epub".toList, "x.txt".toList].filter
        allowedExtBool))) ∧
    (listFilesSync ["b/doc.PDF".toList, "a.epub".toList, "x.txt".toList]
        ["a.epub".toList] clearedCache 50).2.count "b/doc.PDF".toList = 1 :=
  ⟨(C5_relist_exact ["b/doc.PDF".toList, "a.epub".toList, "x.txt".toList]
      ["a.epub".toList] clearedCache 50 (by decide) (by decide) (by decide)
      (Or.inl rfl)).1,
   (C5_relist_exact ["b/doc.PDF".toList, "a.epub".toList, "x.txt".toList]
      ["a.epub".toList] clearedCache 50 (by decide) (by decide) (by decide)
      (Or.inl rfl)).2.2.2 "b/doc.PDF".toList (by decide) (by decide)⟩
/-! ## Claim C4 -/

/-- C4 (counterexample): after viewing `a.pdf` (so it sits in the
recent-files list) and deleting it, the watcher event does clear the cache,
but the next `list_files` call still lists the deleted file: the
recent-files entries are prepended to the listing without an existence
check, contradicting the claim that a deleted file no longer appears. -/
theorem C4_counterexample :
    onDeleted "/srv/storage".toList "/srv/storage/a.pdf".toList
      ⟨some ["a.pdf".toList], 100⟩ = clearedCache ∧
    "a.pdf".toList ∈ (listFilesSync [] ["a.pdf".toList] clearedCache 200).2 := by
  decide

/-- C4 (amended): any create/delete/move event under the storage root sets
the cache to empty (cache absent, last-update zero), so the next
`list_files` call performs a full re-walk regardless of the TTL; a newly
created qualifying file appears in that listing, and a deleted file no
longer appears in it unless it is still held in the recent-files list,
whose entries are prepended without an existence check. -/
theorem C4_watcher_invalidation (storage p q : Str) (st : CacheState)
    (hunder : storage.isPrefixOf p = true) :
    (onCreated storage p st = clearedCache ∧
     onDeleted storage p st = clearedCache ∧
     onMoved storage p q st = clearedCache ∧
     onMoved storage q p st = clearedCache) ∧
    (∀ (fs recent : List Str) (now : Nat),
      (listFilesSync fs recent clearedCache now).1 =
        ⟨some (pySorted (fs.filter allowedExtBool)), now⟩) ∧
    (∀ (fs recent : List Str) (now : Nat) (f : Str),
      recent.length ≤ NUM_RECENT_FILES → f ∈ fs → allowedExtBool f = true →
      f ∈ (listFilesSync fs recent clearedCache now).2) ∧
    (∀ (fs recent : List Str) (now : Nat) (f : Str),
      f ∉ fs → f ∉ recent → f ∉ (listFilesSync fs recent clearedCache now).2) := by
  refine ⟨⟨?_, ?_, ?_, ?_⟩, ?_, ?_, ?_⟩
  · unfold onCreated invalidateIfInStorage
    rw [if_pos hunder]
  · unfold onDeleted invalidateIfInStorage
    rw [if_pos hunder]
  · unfold onMoved invalidateIfInStorage
    rw [if_pos hunder]
    split <;> rfl
  · unfold onMoved invalidateIfInStorage
    rw [if_pos hunder]
  · intro fs recent now
    rw [listFilesSync_stale fs recent clearedCache now (Or.inl rfl)]
  · intro fs recent now f hlen hf hall
    rw [listFilesSync_stale_out fs recent clearedCache now (Or.inl rfl)]
    rw [List.mem_append]
    by_cases hmem : f ∈ recent
    · rw [List.take_of_length_le hlen]
      exact Or.inl hmem
    · refine Or.inr (List.mem_filter.mpr ⟨mem_pySorted.mpr (List.mem_filter.mpr ⟨hf, hall⟩), ?_⟩)
      rw [contains_false_of_not_mem hmem]
      rfl
  · intro fs recent now f hnf hnr
    rw [listFilesSync_stale_out fs recent clearedCache now (Or.inl rfl)]
    rw [List.mem_append]
    rintro (hm | hm)
    · exact hnr ((List.take_sublist _ _).subset hm)
    · exact hnf (List.mem_filter.mp (mem_pySorted.mp (List.mem_filter.mp hm).1)).1
  
/-- Witness for C4 amended: a delete event under the root clears the cache,
and a newly created `new.pdf` appears in the next listing. -/
theorem C4_watcher_invalidation_witness :
    onDeleted "/srv/storage".toList "/srv/storage/old.pdf".toList
      ⟨some ["old.pdf".toList], 100⟩ = clearedCache ∧
    "new.pdf".toList ∈ (listFilesSync ["new.pdf".toList] [] clearedCache 200).2 :=
  ⟨(C4_watcher_invalidation "/srv/storage".toList "/srv/storage/old.pdf".toList
      [] ⟨some ["old.pdf".toList], 100⟩ (by decide)).1.2.1,
   (C4_watcher_invalidation "/srv/storage".toList "/srv/storage/old.pdf".toList
      [] ⟨some ["old.pdf".toList], 100⟩ (by decide)).2.2.1
      ["new.pdf".toList] [] 200 "new.pdf".toList (by decide) (by decide) (by decide)⟩

/-! ## Claim C6 -/

/-- C6 (counterexample): with the cached listing `[b.pdf]` fresh and the
recent-files list holding `a.pdf` (viewed, then deleted and re-listed), the
output is `[a.pdf, b.pdf]`: it contains an entry absent from the cached
listing, so it is not a reordering of the cached sorted listing. -/
theorem C6_counterexample :
    (listFilesSync [] ["a.pdf".toList] ⟨some ["b.pdf".toList], 100⟩ 150).2 =
      ["a.pdf".toList, "b.pdf".toList] ∧
    "a.pdf".toList ∉ ["b.pdf".toList] ∧
    ¬ (listFilesSync [] ["a.pdf".toList] ⟨some ["b.pdf".toList], 100⟩ 150).2.Perm
      ["b.pdf".toList] := by
  refine ⟨by decide, by decide, ?_⟩
  intro hperm
  exact absurd (hperm.length_eq) (by decide)

/-- C6 (amended): on a fresh cache the output of `list_files` is the
recent-files list (trimmed to 5, in recency order) followed by the cached
entries not in the recent list, in cached (sorted) order; it has no
duplicates whenever the recent list and the cache have none; and it is a
reordering (permutation) of the cached sorted listing exactly in the case
that every recent entry is present in the cache. -/
theorem C6_output_shape (fs cache recent : List Str) (st : CacheState) (now : Nat)
    (hc : st.fileCache = some cache) (hl : st.lastUpdate ≠ 0)
    (hfresh : now - st.lastUpdate ≤ CACHE_TIMEOUT) :
    ((listFilesSync fs recent st now).2 =
      recent.take NUM_RECENT_FILES ++ cache.filter (fun f => !(recent.contains f))) ∧
    (recent.Nodup → cache.Nodup → (listFilesSync fs recent st now).2.Nodup) ∧
    (recent.Nodup → cache.Nodup → recent.length ≤ NUM_RECENT_FILES →
      (∀ f ∈ recent, f ∈ cache) →
      (listFilesSync fs recent st now).2.Perm cache) := by
  have hout : (listFilesSync fs recent st now).2 =
      recent.take NUM_RECENT_FILES ++ cache.filter (fun f => !(recent.contains f)) := by
    rw [listFilesSync_fresh fs cache recent st now hc hl hfresh]
  refine ⟨hout, ?_, ?_⟩
  · intro hrec hcache
    rw [hout, List.nodup_append]
    refine ⟨List.Nodup.sublist (List.take_sublist _ _) hrec,
      List.Nodup.filter _ hcache, ?_⟩
    rw [List.disjoint_left]
    intro a ha hb
    have har : a ∈ recent := (List.take_sublist _ _).subset ha
    have := (List.mem_filter.mp hb).2
    rw [contains_true_of_mem har] at this
    exact absurd this (by simp)
  · intro hrec hcache hlen hsub
    rw [hout, List.take_of_length_le hlen]
    rw [List.perm_iff_count]
    intro f
    rw [← count_decEq, ← count_decEq, List.count_append]
    by_cases hmem : f ∈ recent
    · rw [count_eq_one_str hrec hmem, count_eq_zero_str (by
        intro hmf
        have := (List.mem_filter.mp hmf).2
        rw [contains_true_of_mem hmem] at this
        exact absurd this (by simp)),
        count_eq_one_str hcache (hsub f hmem)]
    · have hpred : (fun g => !(recent.contains g)) f = true := by
        simp only [contains_false_of_not_mem hmem]
        rfl
      rw [count_eq_zero_str hmem,
        @List.count_filter Str _ _ (fun g => !(recent.contains g)) f cache hpred]
      omega

/-- Witness for C6 amended: recent `[a.pdf]` contained in the fresh cache
`[a.pdf, b.pdf]` gives output `[a.pdf, b.pdf]`, a permutation of the cache. -/
theorem C6_output_shape_witness :
    ((listFilesSync [] ["a.pdf".toList] ⟨some ["a.pdf".toList, "b.pdf".toList], 100⟩ 150).2 =
      (["a.pdf".toList].take NUM_RECENT_FILES ++
        (["a.pdf".toList, "b.pdf".toList].filter
          (fun f => !(["a.pdf".toList].contains f))))) ∧
    (listFilesSync [] ["a.pdf".toList] ⟨some ["a.pdf".toList, "b.pdf".toList], 100⟩ 150).2.Perm
      ["a.pdf".toList, "b.pdf".toList] :=
  ⟨(C6_output_shape [] ["a.pdf".toList, "b.pdf".toList] ["a.pdf".toList]
      ⟨some ["a.pdf".toList, "b.pdf".toList], 100⟩ 150 rfl (by decide) (by decide)).1,
   (C6_output_shape [] ["a.pdf".toList, "b.pdf".toList] ["a.pdf".toList]
      ⟨some ["a.pdf".toList, "b.pdf".toList], 100⟩ 150 rfl (by decide) (by decide)).2.2
      (by decide) (by decide) (by decide) (by decide)⟩

end ZoteroWeb
